import Mathlib

/-!
Verification of the Simplex blendshape-combination solver core
(`src/SimplexCPP/src/lib/simplex.h`).

The header declares the entities (Shape, Progression, ShapeController and
its variants Slider / Combo / Traversal / Floater, TriSpace, the top-level
Simplex) and defines several member functions inline; other bodies
(`Simplex::rectify`, `Combo::storeValue`, `TriSpace::barycentric`,
`Simplex::solve`, `Simplex::clearValues`, `Simplex::setExactSolve`) are only
declared there.  Inline bodies are embedded from the source; missing bodies
are modelled from the specification and are marked as such in their doc
comments.

Doubles are modelled as rationals; machine `bool` as `Bool`; the mutable
scratch fields of a controller as an explicit record that the embedded
operations update.
-/

namespace SimplexSolver

/-- Tolerance constant from the source: `static double const EPS = 1e-6`. -/
def EPS : ℚ := 1 / 1000000

/-- Clamping bound from the source: `static double const MAXVAL = 1.0`. -/
def MAXVAL : ℚ := 1

/-- Mutable scratch state shared by every ShapeController variant:
`enabled`, `value`, `multiplier` (simplex.h lines 86-88). -/
structure CtrlState where
  enabled : Bool
  value : ℚ
  multiplier : ℚ
deriving DecidableEq, Repr

/-- `ShapeController::clearValue` (simplex.h line 94):
`value = 0.0; multiplier = 1.0;`. -/
def clearValue (st : CtrlState) : CtrlState :=
  { st with value := 0, multiplier := 1 }

/-- `ShapeController::getValue` (simplex.h line 95): returns the scratch value. -/
def getValue (st : CtrlState) : ℚ :=
  st.value

/-- Clamp a rational into the interval `[0, MAXVAL]`. -/
def clampMax (x : ℚ) : ℚ :=
  min (max x 0) MAXVAL

/-- Modelled from the spec: the body of `Simplex::rectify` is not under
`src/` (simplex.h line 214 only declares it).  Spec section 4.1 defines the
rectifier:  from the raw input it produces `values[i] = |raw[i]|` clamped to
`[0, MAXVAL]`, `posValues[i] = max(raw[i], 0)` clamped to `[0, MAXVAL]`,
`clamped[i] = (|raw[i]| > MAXVAL)` and `inverses[i] = (raw[i] < 0)`.  The
`posValues` channel does not appear among the declared out-parameters of
`Simplex::rectify`, but it is part of the rectification step: every
`storeValue` signature in the header receives it. -/
def rectify : List ℚ → List ℚ × List ℚ × List Bool × List Bool
  | [] => ([], [], [], [])
  | r :: rs =>
    let rest := rectify rs
    (clampMax |r| :: rest.1,
     clampMax (max r 0) :: rest.2.1,
     decide (MAXVAL < |r|) :: rest.2.2.1,
     decide (r < 0) :: rest.2.2.2)

theorem clampMax_of_nonneg (x : ℚ) (hx : 0 ≤ x) : clampMax x = min x MAXVAL := by
  simp [clampMax, max_eq_left hx]

theorem rectify_lengths (raw : List ℚ) :
    (rectify raw).1.length = raw.length ∧
    (rectify raw).2.1.length = raw.length ∧
    (rectify raw).2.2.1.length = raw.length ∧
    (rectify raw).2.2.2.length = raw.length := by
  induction raw with
  | nil => simp [rectify]
  | cons r rs ih =>
    simp only [rectify, List.length_cons]
    exact ⟨by simp [ih.1], by simp [ih.2.1], by simp [ih.2.2.1], by simp [ih.2.2.2]⟩

/-- C1.  Rectification of a raw input vector produces four vectors of the
same length as the input, with `values[i] = |raw[i]|` clamped to
`[0, MAXVAL]`, `posValues[i] = max(raw[i], 0)` clamped to `[0, MAXVAL]`,
`clamped[i]` true iff `|raw[i]| > MAXVAL`, and `inverses[i]` true iff
`raw[i] < 0`. -/
theorem rectify_correct (raw : List ℚ) (i : ℕ) (h : i < raw.length) :
    ((rectify raw).1.length = raw.length ∧
     (rectify raw).2.1.length = raw.length ∧
     (rectify raw).2.2.1.length = raw.length ∧
     (rectify raw).2.2.2.length = raw.length) ∧
    (rectify raw).1.getD i 0 = min |raw.getD i 0| MAXVAL ∧
    (rectify raw).2.1.getD i 0 = min (max (raw.getD i 0) 0) MAXVAL ∧
    ((rectify raw).2.2.1.getD i false = true ↔ MAXVAL < |raw.getD i 0|) ∧
    ((rectify raw).2.2.2.getD i false = true ↔ raw.getD i 0 < 0) := by
  refine ⟨rectify_lengths raw, ?_⟩
  induction raw generalizing i with
  | nil => simp at h
  | cons r rs ih =>
    cases i with
    | zero =>
      simp [rectify, clampMax_of_nonneg |r| (abs_nonneg r),
        clampMax_of_nonneg (max r 0) (le_max_right r 0)]
    | succ j =>
      have hj : j < rs.length := by simpa using h
      simpa [rectify] using ih j hj

/-- Concrete instance of `rectify_correct` at raw = [3/2, -1/2], index 0. -/
theorem rectify_correct_witness :
    ((rectify [(3 : ℚ)/2, -1/2]).1.length = ([(3 : ℚ)/2, -1/2] : List ℚ).length ∧
     (rectify [(3 : ℚ)/2, -1/2]).2.1.length = ([(3 : ℚ)/2, -1/2] : List ℚ).length ∧
     (rectify [(3 : ℚ)/2, -1/2]).2.2.1.length = ([(3 : ℚ)/2, -1/2] : List ℚ).length ∧
     (rectify [(3 : ℚ)/2, -1/2]).2.2.2.length = ([(3 : ℚ)/2, -1/2] : List ℚ).length) ∧
    (rectify [(3 : ℚ)/2, -1/2]).1.getD 0 0 = min |([(3 : ℚ)/2, -1/2] : List ℚ).getD 0 0| MAXVAL ∧
    (rectify [(3 : ℚ)/2, -1/2]).2.1.getD 0 0 =
      min (max (([(3 : ℚ)/2, -1/2] : List ℚ).getD 0 0) 0) MAXVAL ∧
    ((rectify [(3 : ℚ)/2, -1/2]).2.2.1.getD 0 false = true ↔
      MAXVAL < |([(3 : ℚ)/2, -1/2] : List ℚ).getD 0 0|) ∧
    ((rectify [(3 : ℚ)/2, -1/2]).2.2.2.getD 0 false = true ↔
      ([(3 : ℚ)/2, -1/2] : List ℚ).getD 0 0 < 0) :=
  rectify_correct [(3 : ℚ)/2, -1/2] 0 (by decide)

/-- `ShapeController::ShapeController` (simplex.h lines 91-92).  The
member-initializer list is `enabled(true), value(0.0), prog(prog)`: the
`multiplier` member is absent from it, so after construction it keeps
whatever indeterminate bits were already in that memory.  `mem` models the
pre-construction memory contents. -/
def shapeControllerCtor (mem : CtrlState) : CtrlState :=
  { enabled := true, value := 0, multiplier := mem.multiplier }

/-- `Slider::storeValue` (simplex.h lines 109-115):
`this->value = values[this->index];`.  The out-of-range case (never reached
in a well-built rig) is modelled totally with `List.getD`. -/
def sliderStoreValue (index : ℕ) (st : CtrlState) (values : List ℚ) : CtrlState :=
  { st with value := values.getD index 0 }

/-- `Traversal::storeValue` (simplex.h lines 142-149):
`this->value = progressCtrl->getValue(); this->multiplier = multiplierCtrl->getValue();`.
`pcSt` and `mcSt` are the current states of the two referenced controllers. -/
def traversalStoreValue (st pcSt mcSt : CtrlState) : CtrlState :=
  { st with value := getValue pcSt, multiplier := getValue mcSt }

/-- Modelled from the spec: the body of `Simplex::clearValues` is not under
`src/` (simplex.h line 227 only declares it).  Spec sections 4.9 and 6 say it
resets every controller's scratch fields, each through
`ShapeController::clearValue` (which is in the source, line 94). -/
def clearValues (sts : List CtrlState) : List CtrlState :=
  sts.map clearValue

/-- `Progression::Progression` (simplex.h lines 76-81).  The member
`pairs` is initialized from the constructor argument in the member-init
list; the `std::sort` call in the body names `pairs`, which inside the body
resolves to the shadowing `const` constructor parameter, not the member
(and its comparator `{a.second < b.second;}` discards the comparison
instead of returning it).  The stored knot sequence is therefore the input
sequence, in input order.  Each knot is (shape index, parameter t). -/
def progressionCtorStored (pairs : List (ℕ × ℚ)) : List (ℕ × ℚ) :=
  pairs

/-- A knot sequence is sorted ascending with strictly monotonic t. -/
def sortedStrictByT : List (ℕ × ℚ) → Bool
  | [] => true
  | [_] => true
  | a :: b :: rest => decide (a.2 < b.2) && sortedStrictByT (b :: rest)

/-- Per-slider contribution of a Combo entry, from spec section 4.4:
reject if `inverses[idx] != (tau < 0)`, else `min(values[idx] / |tau|, 1)`
clamped to `[0, 1]`. -/
def comboW (values : List ℚ) (inverses : List Bool) (idx : ℕ) (tau : ℚ) : ℚ :=
  if inverses.getD idx false ≠ decide (tau < 0) then 0
  else min (max (values.getD idx 0 / |tau|) 0) 1

/-- Minimum of a list of rationals (0 on the empty list). -/
def minList : List ℚ → ℚ
  | [] => 0
  | [x] => x
  | x :: y :: rest => min x (minList (y :: rest))

/-- Modelled from the spec: the body of `Combo::storeValue` is only declared
in the header (simplex.h lines 127-131).  Spec section 4.4: with per-entry
weights `w_j = comboW`, exact mode takes `value = min_j w_j` and smooth mode
`value = prod_j w_j`; the multiplier is not touched. -/
def comboStoreValue (exact : Bool) (stateList : List (ℕ × ℚ))
    (st : CtrlState) (values : List ℚ) (inverses : List Bool) : CtrlState :=
  let ws := stateList.map (fun s => comboW values inverses s.1 s.2)
  if exact then
    { st with value := minList ws }
  else
    { st with value := ws.foldr (· * ·) 1 }

/-- State of a Combo: the shared controller scratch plus the `exact` flag
and the stateList (simplex.h lines 118-126). -/
structure ComboState where
  ctrl : CtrlState
  exact : Bool
  stateList : List (ℕ × ℚ)
deriving DecidableEq, Repr

/-- `Combo::Combo` (simplex.h lines 124-126): delegates to the
ShapeController constructor and initializes `stateList`; the `exact` member
is not initialized by the constructor, so it keeps the indeterminate bits
already in memory (`mem.exact`). -/
def comboCtor (mem : ComboState) (stateList : List (ℕ × ℚ)) : ComboState :=
  { ctrl := shapeControllerCtor mem.ctrl, exact := mem.exact, stateList := stateList }

/-- `Combo::setExact` (simplex.h line 123): `exact = e;`. -/
def setExact (c : ComboState) (e : Bool) : ComboState :=
  { c with exact := e }

/-- Modelled from the spec: the body of `Simplex::setExactSolve` is only
declared (simplex.h line 232); spec section 6 says it toggles the combo
resolution mode, i.e. sets `exact` on the combos. -/
def setExactSolve (combos : List ComboState) (e : Bool) : List ComboState :=
  combos.map (fun c => setExact c e)

theorem minList_le_of_mem {x : ℚ} : ∀ {l : List ℚ}, x ∈ l → minList l ≤ x := by
  intro l
  induction l with
  | nil => intro hx; simp at hx
  | cons a t ih =>
    intro hx
    cases t with
    | nil =>
      simp at hx
      simp [minList, hx]
    | cons b r =>
      rcases List.mem_cons.mp hx with h | h
      · simp [minList, h, min_le_left]
      · exact le_trans (by simp [minList, min_le_right]) (ih h)

theorem minList_mem : ∀ {l : List ℚ}, l ≠ [] → minList l ∈ l := by
  intro l
  induction l with
  | nil => intro hne; simp at hne
  | cons a t ih =>
    intro _
    cases t with
    | nil => simp [minList]
    | cons b r =>
      rcases min_cases a (minList (b :: r)) with ⟨he, _⟩ | ⟨he, _⟩
      · simp [minList, he]
      · have hm := ih (by simp)
        simp only [minList, he]
        exact List.mem_cons_of_mem a hm

/-- The (d+1)x(d+1) matrix of the augmented barycentric system from spec
section 4.6/4.7: the first d rows hold the corner coordinates (columns are
the corners); the last row is all ones, encoding the constraint that the
coordinates sum to 1. -/
def cornerMatrix (d : ℕ) (corners : Fin (d + 1) → Fin d → ℚ) :
    Matrix (Fin (d + 1)) (Fin (d + 1)) ℚ :=
  fun i j => if h : (i : ℕ) < d then corners j ⟨i, h⟩ else 1

/-- The right-hand side `[p; 1]` of the augmented barycentric system. -/
def augPoint (d : ℕ) (p : Fin d → ℚ) : Fin (d + 1) → ℚ :=
  fun i => if h : (i : ℕ) < d then p ⟨i, h⟩ else 1

/-- Modelled from the spec: the body of `TriSpace::barycentric` is only
declared in the header (simplex.h line 170).  Spec, "Barycentric solve":
for a d-simplex with corner matrix C (columns = corners), solve
`C . beta = [p; 1]` augmented with the constraint `sum beta = 1`, a
(d+1)x(d+1) linear system, by a direct dense solve — here the exact
solution `beta = det(M)⁻¹ * cramer(M, [p; 1])` of that system. -/
def barycentric (d : ℕ) (corners : Fin (d + 1) → Fin d → ℚ) (p : Fin d → ℚ) :
    Fin (d + 1) → ℚ :=
  fun k =>
    ((cornerMatrix d corners).det)⁻¹ *
      Matrix.cramerMap (cornerMatrix d corners) (augPoint d p) k

/-- C2.  For a TriSpace simplex with a nondegenerate corner matrix and an
input point inside its domain — i.e. a convex combination `lam` of the
corners — the computed barycentric coordinates sum to 1 within EPS and are
each at least -EPS. -/
theorem barycentric_partition_of_unity (d : ℕ)
    (corners : Fin (d + 1) → Fin d → ℚ) (p : Fin d → ℚ) (lam : Fin (d + 1) → ℚ)
    (hdet : (cornerMatrix d corners).det ≠ 0)
    (hnn : ∀ k, 0 ≤ lam k) (hsum : ∑ k, lam k = 1)
    (hp : ∀ i : Fin d, p i = ∑ k, lam k * corners k i) :
    |(∑ k, barycentric d corners p k) - 1| ≤ EPS ∧
    ∀ k, -EPS ≤ barycentric d corners p k := by
  have hbary : barycentric d corners p =
      ((cornerMatrix d corners).det)⁻¹ •
        (Matrix.cramer (cornerMatrix d corners) (augPoint d p)) := rfl
  have hAb : Matrix.mulVec (cornerMatrix d corners) (barycentric d corners p) = augPoint d p := by
    rw [hbary, Matrix.mulVec_smul, Matrix.mulVec_cramer, smul_smul,
      inv_mul_cancel₀ hdet, one_smul]
  have hAlam : Matrix.mulVec (cornerMatrix d corners) lam = augPoint d p := by
    funext i
    by_cases hi : (i : ℕ) < d
    · simp only [Matrix.mulVec, Matrix.dotProduct, cornerMatrix, augPoint, hi, dite_true]
      rw [hp ⟨i, hi⟩]
      exact Finset.sum_congr rfl fun k _ => mul_comm _ _
    · simp only [Matrix.mulVec, Matrix.dotProduct, cornerMatrix, augPoint, hi, dite_false]
      simpa using hsum
  have hu : IsUnit (cornerMatrix d corners).det := isUnit_iff_ne_zero.mpr hdet
  have hinj : Function.Injective (cornerMatrix d corners).mulVec :=
    Matrix.mulVec_injective_iff_isUnit.mpr
      (((cornerMatrix d corners).isUnit_iff_isUnit_det).mpr hu)
  have hblam : barycentric d corners p = lam := hinj (hAb.trans hAlam.symm)
  have hEPS : (0 : ℚ) ≤ EPS := by norm_num [EPS]
  constructor
  · rw [hblam, hsum]
    simpa using hEPS
  · intro k
    rw [hblam]
    have h0 := hnn k
    linarith

/-- Concrete instance of `barycentric_partition_of_unity`: the 1-simplex
with corners 0 and 1 and the interior point 1/2 (lam = (1/2, 1/2)). -/
theorem barycentric_partition_of_unity_witness :
    |(∑ k, barycentric 1 (fun j _ => if j = 0 then 0 else 1) (fun _ => 1/2) k) - 1| ≤ EPS ∧
    ∀ k, -EPS ≤ barycentric 1 (fun j _ => if j = 0 then 0 else 1) (fun _ => 1/2) k :=
  barycentric_partition_of_unity 1 (fun j _ => if j = 0 then 0 else 1)
    (fun _ => 1/2) (fun _ => 1/2)
    (by
      have h2 : cornerMatrix 1 (fun j _ => if j = 0 then (0 : ℚ) else 1) =
          Matrix.of ![![0, 1], ![1, 1]] := by
        funext i j
        fin_cases i <;> fin_cases j <;> simp [cornerMatrix]
      rw [h2, Matrix.det_fin_two]
      norm_num)
    (fun k => by norm_num)
    (by norm_num [Fin.sum_univ_succ])
    (fun i => by fin_cases i; norm_num [Fin.sum_univ_succ])

/-- C6.  `Slider::storeValue` sets the slider's value to `values[index]`
(the rectified magnitude at the slider's index), leaves the multiplier (and
the enabled flag) untouched, and, being a total function, never errors. -/
theorem slider_storeValue_correct (index : ℕ) (st : CtrlState) (values : List ℚ)
    (h : index < values.length) :
    (sliderStoreValue index st values).value = values.get ⟨index, h⟩ ∧
    (sliderStoreValue index st values).multiplier = st.multiplier ∧
    (sliderStoreValue index st values).enabled = st.enabled := by
  refine ⟨?_, rfl, rfl⟩
  simp [sliderStoreValue, List.getD_eq_getElem?_getD, List.getElem?_eq_getElem h]

/-- Concrete instance of `slider_storeValue_correct`: index 1 of [5, 7]. -/
theorem slider_storeValue_witness :
    1 < ([5, 7] : List ℚ).length ∧
    (sliderStoreValue 1 (CtrlState.mk true 0 1) [5, 7]).value = 7 ∧
    (sliderStoreValue 1 (CtrlState.mk true 0 1) [5, 7]).multiplier = 1 := by
  have h := slider_storeValue_correct 1 (CtrlState.mk true 0 1) [5, 7] (by decide)
  exact ⟨by decide, by simpa using h.1, h.2.1⟩

/-- C7.  `Traversal::storeValue` sets the traversal's value to the current
value of its `progressCtrl` controller and its multiplier to the current
value of its `multiplierCtrl` controller. -/
theorem traversal_storeValue_correct (st pcSt mcSt : CtrlState) :
    (traversalStoreValue st pcSt mcSt).value = pcSt.value ∧
    (traversalStoreValue st pcSt mcSt).multiplier = mcSt.value := by
  exact ⟨rfl, rfl⟩

/-- C9.  `clearValues` is idempotent: clearing every controller's scratch
state twice leaves the same state as clearing it once. -/
theorem clearValues_idempotent (sts : List CtrlState) :
    clearValues (clearValues sts) = clearValues sts := by
  induction sts with
  | nil => rfl
  | cons s t ih =>
    simp only [clearValues, List.map_cons, List.map_map] at *
    exact List.cons_eq_cons.mpr ⟨rfl, ih⟩

/-- C5.  The ShapeController constructor initializes `enabled = true` and
`value = 0.0` but leaves `multiplier` out of its member-initializer list:
constructed over memory whose stale multiplier bits are 5, the controller
reports multiplier 5, not the documented default 1.0.  `clearValue` does
establish the (0.0, 1.0) pair. -/
theorem shapeController_ctor_multiplier_uninitialized :
    (shapeControllerCtor (CtrlState.mk false 3 5)).value = 0 ∧
    (shapeControllerCtor (CtrlState.mk false 3 5)).multiplier = 5 ∧
    (shapeControllerCtor (CtrlState.mk false 3 5)).multiplier ≠ 1 ∧
    clearValue (shapeControllerCtor (CtrlState.mk false 3 5)) = CtrlState.mk true 0 1 := by
  refine ⟨rfl, rfl, by decide, rfl⟩

/-- C4.  The Progression constructor stores the knots in input order: its
`std::sort` targets the shadowing constructor parameter (with a comparator
that returns no value), not the member, so on the input
[(shape 0, t = 1), (shape 1, t = 0)] the stored sequence is unsorted. -/
theorem progression_ctor_stores_unsorted :
    progressionCtorStored [(0, (1 : ℚ)), (1, 0)] = [(0, (1 : ℚ)), (1, 0)] ∧
    sortedStrictByT (progressionCtorStored [(0, (1 : ℚ)), (1, 0)]) = false := by
  exact ⟨rfl, by decide⟩

/-- C3.  For a Combo in exact mode, `storeValue` sets the value to the
minimum over the stateList of the per-entry weights `comboW` (0 on sign
disagreement, else `values[idx] / |tau|` clamped to [0, 1]) and leaves the
multiplier unchanged (so it stays at the 1.0 installed by `clearValue`). -/
theorem combo_storeValue_exact_min (stateList : List (ℕ × ℚ))
    (st : CtrlState) (values : List ℚ) (inverses : List Bool)
    (hne : stateList ≠ []) :
    (comboStoreValue true stateList st values inverses).multiplier = st.multiplier ∧
    (∀ p ∈ stateList,
      (comboStoreValue true stateList st values inverses).value ≤
        comboW values inverses p.1 p.2) ∧
    (∃ p ∈ stateList,
      (comboStoreValue true stateList st values inverses).value =
        comboW values inverses p.1 p.2) := by
  refine ⟨rfl, ?_, ?_⟩
  · intro p hp
    have hmem : comboW values inverses p.1 p.2 ∈
        stateList.map (fun s => comboW values inverses s.1 s.2) :=
      List.mem_map.mpr ⟨p, hp, rfl⟩
    simpa [comboStoreValue] using minList_le_of_mem hmem
  · have hmaps : stateList.map (fun s => comboW values inverses s.1 s.2) ≠ [] := by
      simpa using hne
    have hmem := minList_mem hmaps
    rcases List.mem_map.mp hmem with ⟨p, hp, heq⟩
    exact ⟨p, hp, by simpa [comboStoreValue] using heq.symm⟩

/-- Concrete instance of `combo_storeValue_exact_min`: two sliders at
values 4/5 and 3/5, both targets +1, no inversions. -/
theorem combo_storeValue_exact_min_witness :
    ([((0 : ℕ), (1 : ℚ)), (1, 1)] ≠ ([] : List (ℕ × ℚ))) ∧
    ((comboStoreValue true [((0 : ℕ), (1 : ℚ)), (1, 1)]
        (CtrlState.mk true 0 1) [4/5, 3/5] [false, false]).multiplier = 1 ∧
     (∀ p ∈ [((0 : ℕ), (1 : ℚ)), (1, 1)],
       (comboStoreValue true [((0 : ℕ), (1 : ℚ)), (1, 1)]
         (CtrlState.mk true 0 1) [4/5, 3/5] [false, false]).value ≤
           comboW [4/5, 3/5] [false, false] p.1 p.2) ∧
     (∃ p ∈ [((0 : ℕ), (1 : ℚ)), (1, 1)],
       (comboStoreValue true [((0 : ℕ), (1 : ℚ)), (1, 1)]
         (CtrlState.mk true 0 1) [4/5, 3/5] [false, false]).value =
           comboW [4/5, 3/5] [false, false] p.1 p.2)) :=
  ⟨by decide,
   combo_storeValue_exact_min [((0 : ℕ), (1 : ℚ)), (1, 1)]
     (CtrlState.mk true 0 1) [4/5, 3/5] [false, false] (by decide)⟩

/-- C10.  The Combo constructor assigns no value to the `exact` flag (the
flag after construction is whatever the pre-construction memory held, so
identical constructor arguments can yield either flag); only `setExact`
(and the Simplex-level `setExactSolve`, which applies it to every combo)
determines the resolution mode. -/
theorem combo_exact_unset_by_ctor (stateList : List (ℕ × ℚ)) :
    (∀ mem : ComboState, (comboCtor mem stateList).exact = mem.exact) ∧
    (∃ m1 m2 : ComboState,
      (comboCtor m1 stateList).exact = true ∧ (comboCtor m2 stateList).exact = false) ∧
    (∀ (c : ComboState) (e : Bool), (setExact c e).exact = e) ∧
    (∀ (combos : List ComboState) (e : Bool),
      ∀ c ∈ setExactSolve combos e, c.exact = e) := by
  refine ⟨fun _ => rfl, ⟨⟨CtrlState.mk true 0 1, true, []⟩, ⟨CtrlState.mk true 0 1, false, []⟩, rfl, rfl⟩,
    fun _ _ => rfl, ?_⟩
  intro combos e c hc
  rcases List.mem_map.mp hc with ⟨c0, _, heq⟩
  rw [← heq]
  rfl

/-- Concrete instance of `combo_exact_unset_by_ctor`: the same constructor
call over two memory states yields both flag values. -/
theorem combo_exact_unset_by_ctor_witness :
    (comboCtor ⟨CtrlState.mk true 0 1, true, []⟩ []).exact = true ∧
    (setExact ⟨CtrlState.mk true 0 1, true, []⟩ false).exact = false :=
  ⟨(combo_exact_unset_by_ctor []).1 ⟨CtrlState.mk true 0 1, true, []⟩,
   (combo_exact_unset_by_ctor []).2.2.1 ⟨CtrlState.mk true 0 1, true, []⟩ false⟩

/-- A Progression as the solve pipeline consumes it: its knot list
(shape index, parameter t).  Linear interpolation only; the spline basis is
left open by the spec (section 9, "Spline interpolation"). -/
structure ProgModel where
  knots : List (ℕ × ℚ)
deriving DecidableEq, Repr

/-- Walk the knots with the previous knot at hand; emit the two-knot linear
blend for the first interval containing t, or the last knot with weight
`mul` when t lies beyond it (spec section 4.2, steps 1-3). -/
def linWalk (prev : ℕ × ℚ) (t mul : ℚ) : List (ℕ × ℚ) → List (ℕ × ℚ)
  | [] => [(prev.1, mul)]
  | k :: rest =>
    if t ≤ k.2 then
      [(prev.1, (1 - (t - prev.2) / (k.2 - prev.2)) * mul),
       (k.1, ((t - prev.2) / (k.2 - prev.2)) * mul)]
    else linWalk k t mul rest

/-- Modelled from the spec: `Progression::getLinearOutput` is only declared
in the header (simplex.h line 72); spec section 4.2 defines it: locate the
interval, blend its two knots linearly at the local parameter, clamp to the
end knots at the boundaries. -/
def getLinearOutput (knots : List (ℕ × ℚ)) (t mul : ℚ) : List (ℕ × ℚ) :=
  match knots with
  | [] => []
  | k :: rest => if t ≤ k.2 then [(k.1, mul)] else linWalk k t mul rest

/-- A controller of the solve pipeline: a Slider over an input index, a
Combo over a stateList, or a Traversal referencing two earlier controllers
by position. -/
inductive CtrlKind where
  | slider (index : ℕ)
  | combo (exact : Bool) (stateList : List (ℕ × ℚ))
  | traversal (progressRef multiplierRef : ℕ)
deriving DecidableEq, Repr

/-- The top-level Simplex as the solve entry point sees it: the `built`
flag (simplex.h line 217), the number of shapes, and the controllers with
their progressions. -/
structure Rig where
  built : Bool
  numShapes : ℕ
  ctrls : List (CtrlKind × ProgModel)
deriving DecidableEq, Repr

/-- Scratch state of a controller right after `clearValues`. -/
def clearedState : CtrlState :=
  CtrlState.mk true 0 1

/-- First storeValue sweep of spec section 4.9: sliders and combos read the
rectified channels; traversals wait for the second sweep. -/
def storeStage1 (ctrls : List (CtrlKind × ProgModel)) (values : List ℚ)
    (inverses : List Bool) : List CtrlState :=
  ctrls.map (fun c =>
    match c.1 with
    | CtrlKind.slider i => sliderStoreValue i clearedState values
    | CtrlKind.combo e sl => comboStoreValue e sl clearedState values inverses
    | CtrlKind.traversal _ _ => clearedState)

/-- Second storeValue sweep of spec section 4.9: each traversal reads the
states its two referenced controllers got in the first sweep. -/
def storeStage2 (ctrls : List (CtrlKind × ProgModel)) (sts : List CtrlState) :
    List CtrlState :=
  (ctrls.zip sts).map (fun cs =>
    match cs.1.1 with
    | CtrlKind.traversal pr mr =>
        traversalStoreValue cs.2 (sts.getD pr clearedState) (sts.getD mr clearedState)
    | _ => cs.2)

/-- `accumulator[shape.index] += weight` for one emitted pair. -/
def addPair (acc : List ℚ) (p : ℕ × ℚ) : List ℚ :=
  acc.set p.1 (acc.getD p.1 0 + p.2)

/-- `ShapeController::solve` per spec section 4.8: if enabled and
`|value| >= EPS`, add the progression output into the accumulator. -/
def ctrlSolve (st : CtrlState) (prog : ProgModel) (acc : List ℚ) : List ℚ :=
  if st.enabled && decide (EPS ≤ |st.value|) then
    (getLinearOutput prog.knots st.value st.multiplier).foldl addPair acc
  else acc

/-- The built-rig evaluation pipeline of spec section 4.9: rectify, the
storeValue sweeps, then accumulation over a zero accumulator of size
`numShapes`.  (Rigs here carry no floaters, so the TriSpace stage is
empty.) -/
def solveBuilt (rig : Rig) (raw : List ℚ) : List ℚ :=
  let r := rectify raw
  let sts := storeStage2 rig.ctrls (storeStage1 rig.ctrls r.1 r.2.2.2)
  (sts.zip (rig.ctrls.map (fun c => c.2))).foldl
    (fun acc p => ctrlSolve p.1 p.2 acc)
    (List.replicate rig.numShapes 0)

/-- Modelled from the spec: the body of `Simplex::solve` is only declared
in the header (simplex.h line 234).  Spec section 6, exit conditions: a
solve on a rig that failed to build (`built = false`, line 217) returns a
zero vector; otherwise the section 4.9 pipeline runs. -/
def simplexSolve (rig : Rig) (raw : List ℚ) : List ℚ :=
  if rig.built then solveBuilt rig raw else List.replicate rig.numShapes 0

/-- C8.  Calling solve on a Simplex whose build failed (`built = false`)
returns a zero vector: a vector with one entry per shape, every entry 0. -/
theorem solve_unbuilt_returns_zero (rig : Rig) (raw : List ℚ)
    (h : rig.built = false) :
    (simplexSolve rig raw).length = rig.numShapes ∧
    ∀ x ∈ simplexSolve rig raw, x = 0 := by
  constructor
  · simp [simplexSolve, h]
  · intro x hx
    rw [simplexSolve, h] at hx
    simp only [Bool.false_eq_true, if_false] at hx
    exact List.eq_of_mem_replicate hx

/-- Concrete instance of `solve_unbuilt_returns_zero`: an unbuilt rig with
two shapes and one slider gives the zero vector on input [5]. -/
theorem solve_unbuilt_returns_zero_witness :
    (simplexSolve (Rig.mk false 2 [(CtrlKind.slider 0, ProgModel.mk [(0, 1)])]) [5]).length = 2 ∧
    ∀ x ∈ simplexSolve (Rig.mk false 2 [(CtrlKind.slider 0, ProgModel.mk [(0, 1)])]) [5], x = 0 :=
  solve_unbuilt_returns_zero (Rig.mk false 2 [(CtrlKind.slider 0, ProgModel.mk [(0, 1)])]) [5] rfl

end SimplexSolver
